import Mathlib

set_option maxRecDepth 1000000
set_option maxHeartbeats 2000000

/-
Shallow embedding of the libziprand core (src/ziprand.c) and verification of
its specification claims.  Byte sources are modelled after the in-memory
backend: a total byte-content function together with a size, where a
positioned read at `off` for `n` bytes delivers `min n (size - off)` bytes
(reads past the end are short, never errors).  The FileView operations, whose
claims quantify over arbitrary (possibly failing) sources, are additionally
parametrised by an arbitrary read-return function.
-/

namespace Ziprand

/-- ZIP signatures, from src/ziprand.c. -/
def eocdSig : Nat := 0x06054b50

def zip64EocdSig : Nat := 0x06064b50

def zip64LocatorSig : Nat := 0x07064b50

def centralDirSig : Nat := 0x02014b50

def localHeaderSig : Nat := 0x04034b50

/-- the ZIP64 escape value for 32-bit fields -/
def escape32 : Nat := 0xFFFFFFFF

/-- modulus of uint64 arithmetic -/
def u64Mod : Nat := 2 ^ 64

/-- `ZIPRAND_ERR_SEEK_BEYOND_END` from ziprand.h (value -7). -/
def ziprandErrSeekBeyondEnd : Int := -7

/-- Error codes of `ziprand_error_t` (the non-`ZIPRAND_OK` ones; success is
carried by `Except.ok`). -/
inductive Zerr where
  | ioErr
  | invalidZip
  | notFound
  | compressed
  | nomem
  | invalidParam
  | seekBeyondEnd
deriving DecidableEq

/-- A byte source in the memory-backend model: content function and size.
Bytes are taken mod 256 whenever read (a C byte array only ever holds
values below 256). -/
structure ZipData where
  byteAt : Nat → Nat
  size : Nat

/-- Value of cell `i` of a byte buffer (uint8_t, hence mod 256). -/
def byteVal (b : Nat → Nat) (i : Nat) : Nat := b i % 256

/-- `read_u16_le` from src/ziprand.c. -/
def readU16 (b : Nat → Nat) (i : Nat) : Nat :=
  byteVal b i + 256 * byteVal b (i + 1)

/-- `read_u32_le` from src/ziprand.c. -/
def readU32 (b : Nat → Nat) (i : Nat) : Nat :=
  byteVal b i + 256 * byteVal b (i + 1) + 65536 * byteVal b (i + 2) +
    16777216 * byteVal b (i + 3)

/-- `read_u64_le` from src/ziprand.c. -/
def readU64 (b : Nat → Nat) (i : Nat) : Nat :=
  byteVal b i + 256 * byteVal b (i + 1) + 65536 * byteVal b (i + 2) +
    16777216 * byteVal b (i + 3) + 4294967296 * byteVal b (i + 4) +
    1099511627776 * byteVal b (i + 5) + 281474976710656 * byteVal b (i + 6) +
    72057594037927936 * byteVal b (i + 7)

/-- 16-bit little-endian value of a source's own bytes at `p`. -/
def dataU16 (d : ZipData) (p : Nat) : Nat := readU16 d.byteAt p

/-- 32-bit little-endian value of a source's own bytes at `p`. -/
def dataU32 (d : ZipData) (p : Nat) : Nat := readU32 d.byteAt p

/-- Number of bytes a memory-backed positioned read at `off` for `n` bytes
delivers: `min n (size - off)` (0 past the end). -/
def availLen (d : ZipData) (off n : Nat) : Nat := min n (d.size - off)

/-- The scan buffer after a chunk read: positions below `n` hold the bytes
read from `readPos`, higher positions keep their previous (stale) content,
exactly like the reused stack buffer in `find_eocd`. -/
def bufFill (d : ZipData) (readPos n : Nat) (b : Nat → Nat) : Nat → Nat :=
  fun j => if j < n then d.byteAt (readPos + j) else b j

/-- The inner signature loop of `find_eocd`: check start indices `i`,
`i-1`, ..., `0` of the chunk buffer for the EOCD signature, returning the
first (highest) index that matches. -/
def scanEocdFrom (b : Nat → Nat) : Nat → Option Nat
  | 0 => if readU32 b 0 = eocdSig then some 0 else none
  | i + 1 => if readU32 b (i + 1) = eocdSig then some (i + 1) else scanEocdFrom b i

/-- The backward chunked `while` loop of `find_eocd`.  `low` is
`file_size - max_search`; `b` is the current content of the 8192-byte stack
buffer; the fuel only bounds the iteration count (the loop strictly
decreases `searchPos`, so `d.size + 1` iterations always suffice) and the
fuel-exhausted result coincides with the loop's fall-through result. -/
def findEocdLoop (d : ZipData) (low : Nat) :
    Nat → (Nat → Nat) → Nat → Except Zerr (Nat × Nat)
  | 0, _, _ => .error .invalidZip
  | fuel + 1, b, searchPos =>
    if low < searchPos then
      let chunkSize := min (searchPos - low) 8192
      let readPos := searchPos - chunkSize
      let bytesRead := availLen d readPos chunkSize
      if bytesRead = 0 then .error .ioErr
      else
        let b2 := bufFill d readPos bytesRead b
        match (if 4 ≤ bytesRead then scanEocdFrom b2 (bytesRead - 4) else none) with
        | some i =>
          if i + 10 < bytesRead then .ok (readPos + i, readU16 b2 (i + 10))
          else if availLen d (readPos + i + 10) 2 = 2 then
            .ok (readPos + i, dataU16 d (readPos + i + 10))
          else .error .ioErr
        | none =>
          if readPos < 3 then .error .invalidZip
          else findEocdLoop d low fuel b2 readPos
    else .error .invalidZip

/-- `find_eocd` from src/ziprand.c; `b0` is the initial (uninitialized)
content of the stack scan buffer. -/
def find_eocd (d : ZipData) (b0 : Nat → Nat) : Except Zerr (Nat × Nat) :=
  let maxSearch := min d.size 65557
  findEocdLoop d (d.size - maxSearch) (d.size + 1) b0 d.size

/-- The 20-byte locator search buffer of `read_zip64_eocd`; reads beyond
index 19 (the `read_u64_le(&search_buf[i+8])` overread for `i ≥ 5`) hit
adjacent stack memory, modelled by `g`. -/
def locatorBuf (d : ZipData) (g : Nat → Nat) (searchStart : Nat) : Nat → Nat :=
  fun j => if j < 20 then d.byteAt (searchStart + j) else g j

/-- The ascending `for (i = 0; i <= 16; i++)` locator scan of
`read_zip64_eocd`: `zip64_eocd_offset` stays 0 unless a locator signature is
found, in which case the u64 at `i + 8` of the buffer is taken.  The first
argument counts the remaining indices to try. -/
def findLocatorAux (b : Nat → Nat) : Nat → Nat → Nat
  | 0, _ => 0
  | k + 1, i =>
    if readU32 b i = zip64LocatorSig then readU64 b (i + 8)
    else findLocatorAux b k (i + 1)

/-- `read_zip64_eocd` from src/ziprand.c; yields (cd_offset, num_entries). -/
def read_zip64_eocd (d : ZipData) (g : Nat → Nat) (eocdOffset : Nat) :
    Except Zerr (Nat × Nat) :=
  let searchStart := if 20 < eocdOffset then eocdOffset - 20 else 0
  if availLen d searchStart 20 ≠ 20 then .error .ioErr
  else
    let sbuf := locatorBuf d g searchStart
    let zip64EocdOffset := findLocatorAux sbuf 17 0
    if zip64EocdOffset = 0 then .error .invalidZip
    else if availLen d zip64EocdOffset 56 ≠ 56 then .error .ioErr
    else
      let ebuf := fun j => if j < 56 then d.byteAt (zip64EocdOffset + j) else g j
      if readU32 ebuf 0 ≠ zip64EocdSig then .error .invalidZip
      else .ok (readU64 ebuf 48, readU64 ebuf 32)

/-- The 22-byte EOCD buffer read by `get_cd_info`. -/
def eocdBuf (d : ZipData) (g : Nat → Nat) (eocdOffset : Nat) : Nat → Nat :=
  fun j => if j < 22 then d.byteAt (eocdOffset + j) else g j

/-- The EOCD's 32-bit central-directory-offset field (offset 16). -/
def eocdCd32 (d : ZipData) (g : Nat → Nat) (eocdOffset : Nat) : Nat :=
  readU32 (eocdBuf d g eocdOffset) 16

/-- `get_cd_info` from src/ziprand.c; yields (cd_offset, num_entries). -/
def get_cd_info (d : ZipData) (g : Nat → Nat) : Except Zerr (Nat × Nat) :=
  match find_eocd d g with
  | .error e => .error e
  | .ok (eocdOffset, entries16) =>
    if availLen d eocdOffset 22 ≠ 22 then .error .ioErr
    else if eocdCd32 d g eocdOffset = escape32 then
      read_zip64_eocd d g eocdOffset
    else .ok (eocdCd32 d g eocdOffset, entries16)

/-- `ziprand_entry_t` (parsed central-directory entry). -/
structure ZipEntry where
  name : List Nat
  compressed_size : Nat
  uncompressed_size : Nat
  offset : Nat
  data_offset : Nat
  compression_method : Nat
deriving DecidableEq

/-- The ZIP64 extra-field `while (pos + 4 <= extra_len)` loop of
`read_cd_entry`, filling escaped fields from the id 0x0001 sub-record in
the fixed order uncompressed, compressed, local offset; returns the final
(uncompressed_size, compressed_size, local_offset) triple.  Each iteration
advances `pos` by at least 4, so fuel `elen + 1` always suffices, and the
fuel-exhausted result coincides with the loop's fall-through result. -/
def zip64ExtraLoop (x : Nat → Nat) (elen : Nat) :
    Nat → Nat → Nat → Nat → Nat → Nat × Nat × Nat
  | 0, _, u, c, l => (u, c, l)
  | fuel + 1, pos, u, c, l =>
    if pos + 4 ≤ elen then
      let dsz := readU16 x (pos + 2)
      if readU16 x pos = 1 then
        let fp0 := pos + 4
        let s1 : Nat × Nat :=
          if u = escape32 ∧ fp0 + 8 ≤ pos + 4 + dsz then (readU64 x fp0, fp0 + 8)
          else (u, fp0)
        let s2 : Nat × Nat :=
          if c = escape32 ∧ s1.2 + 8 ≤ pos + 4 + dsz then (readU64 x s1.2, s1.2 + 8)
          else (c, s1.2)
        let l2 : Nat :=
          if l = escape32 ∧ s2.2 + 8 ≤ pos + 4 + dsz then readU64 x s2.2 else l
        (s1.1, s2.1, l2)
      else zip64ExtraLoop x elen fuel (pos + 4 + dsz) u c l
    else (u, c, l)

/-- `read_cd_entry` from src/ziprand.c: parse one central-directory file
header at `off`, returning the entry and the advanced directory cursor.
`g` models stale memory beyond the bounds of the heap extra-field buffer
(overread when a sub-record's `data_size` exceeds the remaining buffer). -/
def read_cd_entry (d : ZipData) (g : Nat → Nat) (off : Nat) :
    Except Zerr (ZipEntry × Nat) :=
  if availLen d off 46 ≠ 46 then .error .ioErr
  else
    let h := fun j => if j < 46 then d.byteAt (off + j) else g j
    if readU32 h 0 ≠ centralDirSig then .error .invalidZip
    else
      let method := readU16 h 10
      let flen := readU16 h 28
      let elen := readU16 h 30
      let clen := readU16 h 32
      let csize := readU32 h 20
      let usize := readU32 h 24
      let loff := readU32 h 42
      if availLen d (off + 46) flen ≠ flen then .error .ioErr
      else
        let nm := (List.range flen).map (fun j => d.byteAt (off + 46 + j) % 256)
        if 0 < elen then
          if availLen d (off + 46 + flen) elen ≠ elen then .error .ioErr
          else
            let x := fun j => if j < elen then d.byteAt (off + 46 + flen + j) else g j
            let t : Nat × Nat × Nat :=
              if usize = escape32 ∨ csize = escape32 ∨ loff = escape32 then
                zip64ExtraLoop x elen (elen + 1) 0 usize csize loff
              else (usize, csize, loff)
            .ok (⟨nm, t.2.1, t.1, t.2.2, 0, method⟩, off + 46 + flen + elen + clen)
        else .ok (⟨nm, csize, usize, loff, 0, method⟩, off + 46 + flen + elen + clen)

/-- Sequential central-directory parse: the `for (i < num_entries)` loop of
`ziprand_open`, threading the directory cursor; any per-entry failure
aborts the whole parse. -/
def parseEntries (d : ZipData) (g : Nat → Nat) : Nat → Nat → Except Zerr (List ZipEntry)
  | _, 0 => .ok []
  | off, n + 1 =>
    match read_cd_entry d g off with
    | .error e => .error e
    | .ok (ent, off2) =>
      match parseEntries d g off2 n with
      | .error e => .error e
      | .ok rest => .ok (ent :: rest)

/-- `ziprand_archive` (successful open result). -/
structure ZipArchive where
  entries : List ZipEntry
  entry_count : Nat
  total_size : Nat
deriving DecidableEq

/-- `ziprand_open` from src/ziprand.c over a memory-backed source (the
source capability is present and its size call succeeds by construction;
allocations are modelled as succeeding).  All-or-nothing: any directory
failure yields `none`. -/
def ziprand_open (d : ZipData) (g : Nat → Nat) : Option ZipArchive :=
  match get_cd_info d g with
  | .error _ => none
  | .ok (cdOffset, numEntries) =>
    match parseEntries d g cdOffset numEntries with
    | .error _ => none
    | .ok es => some ⟨es, numEntries, d.size⟩

/-- The 30-byte local-file-header buffer read by `get_data_offset` (all its
reads stay inside the 30 bytes). -/
def lfhBuf (d : ZipData) (off : Nat) : Nat → Nat :=
  fun j => if j < 30 then d.byteAt (off + j) else 0

/-- `get_data_offset` from src/ziprand.c: read the 30-byte local file header
at `entry->offset`, check its signature, and compute the data offset from
the local header's own filename/extra lengths. -/
def get_data_offset (d : ZipData) (e : ZipEntry) : Except Zerr Nat :=
  if availLen d e.offset 30 ≠ 30 then .error .ioErr
  else if readU32 (lfhBuf d e.offset) 0 ≠ localHeaderSig then .error .invalidZip
  else .ok (e.offset + 30 + readU16 (lfhBuf d e.offset) 26 + readU16 (lfhBuf d e.offset) 28)

/-- `ziprand_file` state: the entry's uncompressed size and data offset as
seen through the file handle, plus the private cursor. -/
structure ZFile where
  usize : Nat
  dataOffset : Nat
  position : Nat
deriving DecidableEq

/-- `ziprand_fopen` from src/ziprand.c: refuse non-stored entries, lazily
resolve `data_offset` when it is still the 0 sentinel (caching it on the
entry, returned here as the updated entry), and hand out a cursor at 0. -/
def ziprand_fopen (d : ZipData) (e : ZipEntry) : Option (ZipEntry × ZFile) :=
  if e.compression_method ≠ 0 then none
  else
    match (if e.data_offset = 0 then get_data_offset d e else .ok e.data_offset) with
    | .error _ => none
    | .ok doff =>
      some ({ e with data_offset := doff }, ⟨e.uncompressed_size, doff, 0⟩)

/-- Return value of an arbitrary source read callback: bytes read (or a
negative error), as a function of the absolute offset and requested size. -/
def ReadFn := Nat → Nat → Int

/-- `ziprand_fread_at` from src/ziprand.c: position-independent read;
offsets at or past the uncompressed size yield 0; otherwise the request is
clamped to the remaining length and delegated to the source, whose return
value (including negative errors) is passed through unchanged. -/
def ziprand_fread_at (rd : ReadFn) (f : ZFile) (off sz : Nat) : Int :=
  if f.usize ≤ off then 0
  else rd (f.dataOffset + off) (min sz (f.usize - off))

/-- `ziprand_fread` from src/ziprand.c: read at the cursor, then advance the
(uint64) cursor by the bytes returned when the result is positive. -/
def ziprand_fread (rd : ReadFn) (f : ZFile) (sz : Nat) : Int × ZFile :=
  let r := ziprand_fread_at rd f f.position sz
  if 0 < r then (r, { f with position := (f.position + r.toNat) % u64Mod }) else (r, f)

/-- `SEEK_SET` -/
def seekSet : Nat := 0

/-- `SEEK_CUR` -/
def seekCur : Nat := 1

/-- `SEEK_END` -/
def seekEnd : Nat := 2

/-- Conversion of an int64 value to uint64 (the C cast `(uint64_t)offset`). -/
def u64OfInt (x : Int) : Nat := (x % (u64Mod : Int)).toNat

/-- Reinterpretation of a uint64 value as int64 (the C cast
`(int64_t)file->position`). -/
def toInt64 (n : Nat) : Int :=
  if n % u64Mod < 2 ^ 63 then (n % u64Mod : Int) else (n % u64Mod : Int) - (u64Mod : Int)

/-- The `switch (whence)` of `ziprand_fseek`: the computed new (uint64)
position, or `none` for an unknown `whence`.  Negative SEEK_CUR/SEEK_END
offsets whose magnitude exceeds the base clamp to 0; SEEK_SET converts its
offset straight to uint64. -/
def fseekNewPos (f : ZFile) (off : Int) (whence : Nat) : Option Nat :=
  if whence = seekSet then some (u64OfInt off)
  else if whence = seekCur then
    some (if 0 ≤ off then (f.position + off.toNat) % u64Mod
          else if f.position < (-off).toNat then 0 else f.position - (-off).toNat)
  else if whence = seekEnd then
    some (if 0 ≤ off then (f.usize + off.toNat) % u64Mod
          else if f.usize < (-off).toNat then 0 else f.usize - (-off).toNat)
  else none

/-- `ziprand_fseek` from src/ziprand.c: compute the new position per
`whence`, reject (result -1, state unchanged) when it exceeds the entry's
uncompressed size, otherwise commit it and return it. -/
def ziprand_fseek (f : ZFile) (off : Int) (whence : Nat) : Int × ZFile :=
  match fseekNewPos f off whence with
  | none => (-1, f)
  | some np => if f.usize < np then (-1, f) else (toInt64 np, { f with position := np })

/-- `ziprand_ftell` from src/ziprand.c. -/
def ziprand_ftell (f : ZFile) : Int := toInt64 f.position

/-- `ziprand_fsize` from src/ziprand.c. -/
def ziprand_fsize (f : ZFile) : Int := toInt64 f.usize

/- ------------------------------------------------------------------ -/
/- Concrete sources used by witnesses and counterexamples.            -/
/- ------------------------------------------------------------------ -/

/-- all-zero initial scan-buffer / stale-memory content -/
def gZ : Nat → Nat := fun _ => 0

/-- a 100-byte all-zero source: no EOCD signature anywhere -/
def dZeros : ZipData := ⟨fun _ => 0, 100⟩

/-- An 8200-byte source with EOCD signatures at offsets 0 and 5 and zeros
elsewhere.  The backward scan's first chunk covers bytes 8..8199, the
second covers 0..7 and its inner loop only checks start offsets 0..4, so
the occurrence at 5, which straddles the chunk boundary, is never seen. -/
def dCex : ZipData :=
  ⟨fun i => [0x50, 0x4b, 0x05, 0x06, 0, 0x50, 0x4b, 0x05, 0x06].getD i 0, 8200⟩

/-- A 69-byte archive: one stored central-directory entry (name "a",
sizes 5, local offset 0) at offset 0 followed by its EOCD at offset 47
declaring 1 entry and central-directory offset 0. -/
def dArch1 : ZipData :=
  ⟨fun i =>
    [0x50, 0x4b, 0x01, 0x02, 0, 0, 0, 0, 0, 0,
     0, 0, 0, 0, 0, 0, 0, 0, 0, 0,
     5, 0, 0, 0, 5, 0, 0, 0, 1, 0,
     0, 0, 0, 0, 0, 0, 0, 0, 0, 0,
     0, 0, 0, 0, 0, 0, 97,
     0x50, 0x4b, 0x05, 0x06, 0, 0, 0, 0, 1, 0,
     1, 0, 0x2F, 0, 0, 0, 0, 0, 0, 0, 0, 0].getD i 0, 69⟩

lemma dCex_size : dCex.size = 8200 := rfl

lemma dCex_byte_hi : ∀ j, 9 ≤ j → dCex.byteAt j = 0 := by
  intro j h
  show ([0x50, 0x4b, 0x05, 0x06, 0, 0x50, 0x4b, 0x05, 0x06].getD j 0) = 0
  apply List.getD_eq_default
  simpa using h

/-- An 8204-byte source with its only EOCD signature at offset 1, count
field bytes 0x22 (at offset 11) and 0x00 (at offset 12), and a 0x33 byte at
offset 24.  The first scan chunk covers bytes 12..8203 and leaves 0x33 (the
byte at 24) in scan-buffer cell 12; the second chunk covers bytes 0..11, the
signature is found at chunk index 1, and since `i + 11 = bytes_read = 12`
the count's high byte is read from the stale cell 12, yielding
0x22 + 256·0x33 = 13090 instead of the stored 0x22 + 256·0x00 = 34. -/
def dCex2 : ZipData :=
  ⟨fun i =>
    [0, 0x50, 0x4b, 0x05, 0x06, 0, 0, 0, 0, 0,
     0, 0x22, 0, 0, 0, 0, 0, 0, 0, 0,
     0, 0, 0, 0, 0x33].getD i 0, 8204⟩

lemma dCex2_byte_hi : ∀ j, 25 ≤ j → dCex2.byteAt j = 0 := by
  intro j h
  show ([0, 0x50, 0x4b, 0x05, 0x06, 0, 0, 0, 0, 0,
     0, 0x22, 0, 0, 0, 0, 0, 0, 0, 0,
     0, 0, 0, 0, 0x33].getD j 0) = 0
  apply List.getD_eq_default
  simpa using h

/- ------------------------------------------------------------------ -/
/- Lemmas about the backward chunked EOCD scan.                       -/
/- ------------------------------------------------------------------ -/

lemma byteVal_bufFill {d : ZipData} {r n : Nat} {b : Nat → Nat} {j : Nat} (h : j < n) :
    byteVal (bufFill d r n b) j = byteVal d.byteAt (r + j) := by
  simp [byteVal, bufFill, h]

lemma readU32_bufFill {d : ZipData} {r n : Nat} {b : Nat → Nat} {i : Nat} (h : i + 3 < n) :
    readU32 (bufFill d r n b) i = dataU32 d (r + i) := by
  unfold dataU32
  unfold readU32
  rw [byteVal_bufFill (by omega), byteVal_bufFill (by omega), byteVal_bufFill (by omega),
    byteVal_bufFill (by omega)]
  simp [Nat.add_assoc]

lemma readU16_bufFill {d : ZipData} {r n : Nat} {b : Nat → Nat} {i : Nat} (h : i + 1 < n) :
    readU16 (bufFill d r n b) i = dataU16 d (r + i) := by
  unfold dataU16
  unfold readU16
  rw [byteVal_bufFill (by omega), byteVal_bufFill (by omega)]
  simp [Nat.add_assoc]

/-- Any 16-bit little-endian decode is below 2^16. -/
lemma readU16_lt (b : Nat → Nat) (i : Nat) : readU16 b i < 65536 := by
  unfold readU16 byteVal
  omega

lemma scanEocdFrom_sound {b : Nat → Nat} :
    ∀ {k i : Nat}, scanEocdFrom b k = some i → readU32 b i = eocdSig ∧ i ≤ k := by
  intro k
  induction k with
  | zero =>
    intro i h
    unfold scanEocdFrom at h
    split at h
    · cases h; exact ⟨by assumption, Nat.le_refl _⟩
    · cases h
  | succ k ih =>
    intro i h
    unfold scanEocdFrom at h
    split at h
    · cases h; exact ⟨by assumption, Nat.le_refl _⟩
    · obtain ⟨h1, h2⟩ := ih h
      exact ⟨h1, by omega⟩

lemma scanEocdFrom_none {b : Nat → Nat} :
    ∀ k, (∀ i, i ≤ k → readU32 b i ≠ eocdSig) → scanEocdFrom b k = none := by
  intro k
  induction k with
  | zero =>
    intro h
    unfold scanEocdFrom
    rw [if_neg (h 0 (Nat.le_refl _))]
  | succ k ih =>
    intro h
    unfold scanEocdFrom
    rw [if_neg (h (k + 1) (Nat.le_refl _))]
    exact ih (fun i hi => h i (by omega))

/-- One no-match iteration of the backward scan loop, for stepping the
loop on concrete inputs without evaluating the whole chunk scan. -/
lemma findEocdLoop_step_none (d : ZipData) (low fuel : Nat) (b : Nat → Nat)
    (sp cs rp : Nat) (hcs : cs = min (sp - low) 8192) (hrp : rp = sp - cs)
    (hlt : low < sp) (hsp : sp ≤ d.size)
    (hscan : ∀ i, i ≤ cs - 4 → readU32 (bufFill d rp cs b) i ≠ eocdSig)
    (h3 : ¬ rp < 3) :
    findEocdLoop d low (fuel + 1) b sp = findEocdLoop d low fuel (bufFill d rp cs b) rp := by
  subst hcs
  subst hrp
  simp only [findEocdLoop]
  rw [if_pos hlt]
  have havail : availLen d (sp - min (sp - low) 8192) (min (sp - low) 8192)
      = min (sp - low) 8192 := by
    unfold availLen
    omega
  rw [havail]
  rw [if_neg (show ¬ min (sp - low) 8192 = 0 by omega)]
  have hs : (if 4 ≤ min (sp - low) 8192 then
      scanEocdFrom (bufFill d (sp - min (sp - low) 8192) (min (sp - low) 8192) b)
        (min (sp - low) 8192 - 4) else none) = none := by
    by_cases h4 : 4 ≤ min (sp - low) 8192
    · rw [if_pos h4]
      exact scanEocdFrom_none _ hscan
    · rw [if_neg h4]
  rw [hs]
  rw [if_neg h3]

/-- If no EOCD signature occurs at any in-range offset at or above `low`,
the scan loop fails with InvalidArchive. -/
lemma findEocdLoop_none (d : ZipData) (low : Nat)
    (hno : ∀ p, low ≤ p → p + 4 ≤ d.size → dataU32 d p ≠ eocdSig) :
    ∀ (fuel : Nat) (b : Nat → Nat) (sp : Nat), sp ≤ d.size →
      findEocdLoop d low fuel b sp = .error .invalidZip := by
  intro fuel
  induction fuel with
  | zero => intro b sp _; rfl
  | succ fuel ih =>
    intro b sp hsp
    simp only [findEocdLoop]
    by_cases hlt : low < sp
    · rw [if_pos hlt]
      have havail : availLen d (sp - min (sp - low) 8192) (min (sp - low) 8192)
          = min (sp - low) 8192 := by
        unfold availLen
        omega
      rw [havail]
      rw [if_neg (show ¬ min (sp - low) 8192 = 0 by omega)]
      have hs : (if 4 ≤ min (sp - low) 8192 then
          scanEocdFrom (bufFill d (sp - min (sp - low) 8192) (min (sp - low) 8192) b)
            (min (sp - low) 8192 - 4) else none) = none := by
        by_cases h4 : 4 ≤ min (sp - low) 8192
        · rw [if_pos h4]
          apply scanEocdFrom_none
          intro i hi
          rw [readU32_bufFill (by omega)]
          exact hno (sp - min (sp - low) 8192 + i) (by omega) (by omega)
        · rw [if_neg h4]
      rw [hs]
      by_cases h3 : sp - min (sp - low) 8192 < 3
      · rw [if_pos h3]
      · rw [if_neg h3]
        exact ih _ _ (by omega)
    · rw [if_neg hlt]

/-- Whenever the scan loop succeeds, the offset it returns is in range,
at or above `low`, and holds the EOCD signature. -/
lemma findEocdLoop_sound (d : ZipData) (low : Nat) :
    ∀ (fuel : Nat) (b : Nat → Nat) (sp off n : Nat), sp ≤ d.size →
      findEocdLoop d low fuel b sp = .ok (off, n) →
      low ≤ off ∧ off + 4 ≤ d.size ∧ dataU32 d off = eocdSig := by
  intro fuel
  induction fuel with
  | zero =>
    intro b sp off n _ h
    exact absurd h (by simp [findEocdLoop])
  | succ fuel ih =>
    intro b sp off n hsp heq
    simp only [findEocdLoop] at heq
    by_cases hlt : low < sp
    case neg =>
      rw [if_neg hlt] at heq
      cases heq
    case pos =>
      rw [if_pos hlt] at heq
      have havail : availLen d (sp - min (sp - low) 8192) (min (sp - low) 8192)
          = min (sp - low) 8192 := by
        unfold availLen
        omega
      rw [havail] at heq
      rw [if_neg (show ¬ min (sp - low) 8192 = 0 by omega)] at heq
      by_cases h4 : 4 ≤ min (sp - low) 8192
      case neg =>
        rw [if_neg h4] at heq
        dsimp only at heq
        by_cases h3 : sp - min (sp - low) 8192 < 3
        · rw [if_pos h3] at heq
          cases heq
        · rw [if_neg h3] at heq
          exact ih _ (sp - min (sp - low) 8192) off n (by omega) heq
      case pos =>
        rw [if_pos h4] at heq
        rcases hs : scanEocdFrom (bufFill d (sp - min (sp - low) 8192) (min (sp - low) 8192) b)
            (min (sp - low) 8192 - 4) with _ | i
        · rw [hs] at heq
          dsimp only at heq
          by_cases h3 : sp - min (sp - low) 8192 < 3
          · rw [if_pos h3] at heq
            cases heq
          · rw [if_neg h3] at heq
            exact ih _ (sp - min (sp - low) 8192) off n (by omega) heq
        · rw [hs] at heq
          dsimp only at heq
          obtain ⟨hsig, hik⟩ := scanEocdFrom_sound hs
          have hoff : off = sp - min (sp - low) 8192 + i := by
            by_cases h10 : i + 10 < min (sp - low) 8192
            · rw [if_pos h10] at heq
              simp only [Except.ok.injEq, Prod.mk.injEq] at heq
              exact heq.1.symm
            · rw [if_neg h10] at heq
              by_cases h2 : availLen d (sp - min (sp - low) 8192 + i + 10) 2 = 2
              · rw [if_pos h2] at heq
                simp only [Except.ok.injEq, Prod.mk.injEq] at heq
                exact heq.1.symm
              · rw [if_neg h2] at heq
                cases heq
          subst hoff
          refine ⟨by omega, by omega, ?_⟩
          rw [← readU32_bufFill (b := b) (by omega : i + 3 < min (sp - low) 8192)]
          exact hsig

/-- A scan-loop call whose start position already equals the window floor
does nothing and fails with InvalidArchive. -/
lemma findEocdLoop_self (d : ZipData) (low : Nat) :
    ∀ (fuel : Nat) (b : Nat → Nat), findEocdLoop d low fuel b low = .error .invalidZip := by
  intro fuel b
  cases fuel with
  | zero => rfl
  | succ fuel =>
    simp only [findEocdLoop]
    rw [if_neg (Nat.lt_irrefl low)]

/-- Provenance of the entry count returned by the scan loop: it is always a
16-bit value, and it equals the 16-bit value stored in the source at offset
10 from the returned record start whenever `off + 11` does not land exactly
on a chunk boundary of the scan — the boundaries being the offsets
`d.size - 8192·k`, which is what the invariant `(d.size - sp) % 8192 = 0`
tracks (when the count field's second byte is exactly at the boundary, its
high byte is read from stale buffer memory instead). -/
lemma findEocdLoop_count (d : ZipData) (low : Nat) :
    ∀ (fuel : Nat) (b : Nat → Nat) (sp off n : Nat), sp ≤ d.size →
      (d.size - sp) % 8192 = 0 →
      findEocdLoop d low fuel b sp = .ok (off, n) →
      n < 65536 ∧ ((d.size - (off + 11)) % 8192 ≠ 0 →
        off + 12 ≤ d.size ∧ n = dataU16 d (off + 10)) := by
  intro fuel
  induction fuel with
  | zero =>
    intro b sp off n _ _ h
    exact absurd h (by simp [findEocdLoop])
  | succ fuel ih =>
    intro b sp off n hsp hmod heq
    simp only [findEocdLoop] at heq
    by_cases hlt : low < sp
    case neg =>
      rw [if_neg hlt] at heq
      cases heq
    case pos =>
      rw [if_pos hlt] at heq
      have havail : availLen d (sp - min (sp - low) 8192) (min (sp - low) 8192)
          = min (sp - low) 8192 := by
        unfold availLen
        omega
      rw [havail] at heq
      rw [if_neg (show ¬ min (sp - low) 8192 = 0 by omega)] at heq
      by_cases h4 : 4 ≤ min (sp - low) 8192
      case neg =>
        rw [if_neg h4] at heq
        dsimp only at heq
        by_cases h3 : sp - min (sp - low) 8192 < 3
        · rw [if_pos h3] at heq
          cases heq
        · rw [if_neg h3] at heq
          rw [show sp - min (sp - low) 8192 = low by omega] at heq
          rw [findEocdLoop_self] at heq
          cases heq
      case pos =>
        rw [if_pos h4] at heq
        rcases hs : scanEocdFrom (bufFill d (sp - min (sp - low) 8192) (min (sp - low) 8192) b)
            (min (sp - low) 8192 - 4) with _ | i
        · rw [hs] at heq
          dsimp only at heq
          by_cases h3 : sp - min (sp - low) 8192 < 3
          · rw [if_pos h3] at heq
            cases heq
          · rw [if_neg h3] at heq
            by_cases hcs8 : min (sp - low) 8192 = 8192
            · exact ih _ (sp - min (sp - low) 8192) off n (by omega) (by omega) heq
            · rw [show sp - min (sp - low) 8192 = low by omega] at heq
              rw [findEocdLoop_self] at heq
              cases heq
        · rw [hs] at heq
          dsimp only at heq
          obtain ⟨hsig, hik⟩ := scanEocdFrom_sound hs
          by_cases h10 : i + 10 < min (sp - low) 8192
          · rw [if_pos h10] at heq
            simp only [Except.ok.injEq, Prod.mk.injEq] at heq
            obtain ⟨hoff, hn⟩ := heq
            subst hoff
            subst hn
            refine ⟨readU16_lt _ _, ?_⟩
            intro hcond
            by_cases h11 : i + 11 < min (sp - low) 8192
            · refine ⟨by omega, ?_⟩
              rw [readU16_bufFill (b := b) (by omega : i + 10 + 1 < min (sp - low) 8192)]
              rw [show sp - min (sp - low) 8192 + (i + 10)
                  = sp - min (sp - low) 8192 + i + 10 by omega]
            · exact absurd (show (d.size - (sp - min (sp - low) 8192 + i + 11)) % 8192 = 0
                by omega) hcond
          · rw [if_neg h10] at heq
            by_cases h2 : availLen d (sp - min (sp - low) 8192 + i + 10) 2 = 2
            · rw [if_pos h2] at heq
              simp only [Except.ok.injEq, Prod.mk.injEq] at heq
              obtain ⟨hoff, hn⟩ := heq
              subst hoff
              subst hn
              unfold availLen at h2
              refine ⟨readU16_lt _ _, fun _ => ⟨by omega, rfl⟩⟩
            · rw [if_neg h2] at heq
              cases heq

/-- C1 (amended): `find_eocd` scans the `min(total_size, 65557)`-byte tail
window backward in chunks of up to 8192 bytes; whenever it succeeds, the
offset it returns lies in that window and holds the EOCD signature
0x06054b50 (but, because consecutive chunks do not overlap, it is the first
occurrence found by the chunked scan and not always the occurrence closest
to the end), and the count it returns is a 16-bit value that equals the
entry count stored at offset 10 from the record start whenever `off + 11`
does not land exactly on one of the scan's chunk boundaries (the offsets
`total_size - 8192·k`; at such a boundary the count's high byte comes from
stale scan-buffer memory); if no signature occurs anywhere in the window,
it fails with InvalidArchive and `open` returns no handle. -/
theorem claim_C1 : ∀ (d : ZipData) (g : Nat → Nat),
    ((∀ p, d.size - min d.size 65557 ≤ p → p + 4 ≤ d.size → dataU32 d p ≠ eocdSig) →
        find_eocd d g = .error .invalidZip ∧ ziprand_open d g = none)
    ∧ (∀ off n, find_eocd d g = .ok (off, n) →
        (d.size - min d.size 65557 ≤ off ∧ off + 4 ≤ d.size ∧ dataU32 d off = eocdSig)
        ∧ n < 65536
        ∧ ((d.size - (off + 11)) % 8192 ≠ 0 →
            off + 12 ≤ d.size ∧ n = dataU16 d (off + 10))) := by
  intro d g
  constructor
  · intro hno
    have h1 : find_eocd d g = .error .invalidZip :=
      findEocdLoop_none d (d.size - min d.size 65557) hno (d.size + 1) g d.size (Nat.le_refl _)
    refine ⟨h1, ?_⟩
    unfold ziprand_open get_cd_info
    rw [h1]
  · intro off n h
    have hsound := findEocdLoop_sound d (d.size - min d.size 65557) (d.size + 1) g d.size off n
      (Nat.le_refl _) h
    have hcount := findEocdLoop_count d (d.size - min d.size 65557) (d.size + 1) g d.size off n
      (Nat.le_refl _) (by omega) h
    exact ⟨hsound, hcount.1, hcount.2⟩

/-- Witness for C1: the all-zero 100-byte source has no EOCD signature, so
`find_eocd` fails with InvalidArchive and `ziprand_open` returns no
archive; and on the concrete one-entry archive `dArch1`, the offset 47
returned by `find_eocd` holds the EOCD signature and the returned count 1
equals the 16-bit value stored at offset 10 from the record start. -/
theorem claim_C1_witness :
    find_eocd dZeros gZ = .error .invalidZip ∧ ziprand_open dZeros gZ = none ∧
      dataU32 dArch1 47 = eocdSig ∧ dataU16 dArch1 (47 + 10) = 1 := by
  have hno : ∀ p, dZeros.size - min dZeros.size 65557 ≤ p → p + 4 ≤ dZeros.size →
      dataU32 dZeros p ≠ eocdSig := by
    intro p _ _
    show dataU32 ⟨fun _ => 0, 100⟩ p ≠ eocdSig
    simp [dataU32, readU32, byteVal, eocdSig]
  obtain ⟨h1, h2⟩ := (claim_C1 dZeros gZ).1 hno
  have hc := (claim_C1 dArch1 gZ).2 47 1 rfl
  exact ⟨h1, h2, hc.1.2.2, (hc.2.2 (by decide)).2.symm⟩

/-- Counterexample for C1 as stated, refuting both the offset clause and
the count clause.  On `dCex` the EOCD signature occurs at offset 5 (as well
as at offset 0), and 5 is the occurrence closest to the end of the search
window, but the signature at 5 straddles the backward scan's chunk boundary
at byte 8, so `find_eocd` misses it and returns offset 0 instead of 5.  On
`dCex2` the signature is found at offset 1 with its count field ending
exactly at the chunk boundary 12, so `find_eocd` returns the count 13090
whose high byte 0x33 is stale buffer content, while the 16-bit entry count
stored at offset 10 from the record start is 34. -/
theorem claim_C1_counterexample :
    (find_eocd dCex gZ = .ok (0, 0) ∧ dataU32 dCex 5 = eocdSig) ∧
      (find_eocd dCex2 gZ = .ok (1, 13090) ∧ dataU16 dCex2 (1 + 10) = 34) := by
  constructor
  · refine ⟨?_, rfl⟩
    have hchunk : ∀ i, i ≤ 8192 - 4 → readU32 (bufFill dCex 8 8192 gZ) i ≠ eocdSig := by
      intro i hi
      rw [readU32_bufFill (by omega)]
      rcases Nat.eq_zero_or_pos i with h0 | h1
      · subst h0
        decide
      · have hz : dataU32 dCex (8 + i) = 0 := by
          unfold dataU32 readU32 byteVal
          rw [dCex_byte_hi (8 + i) (by omega), dCex_byte_hi (8 + i + 1) (by omega),
            dCex_byte_hi (8 + i + 2) (by omega), dCex_byte_hi (8 + i + 3) (by omega)]
        rw [hz]
        decide
    have h1 : findEocdLoop dCex 0 (8200 + 1) gZ 8200
        = findEocdLoop dCex 0 8200 (bufFill dCex 8 8192 gZ) 8 := by
      have := findEocdLoop_step_none dCex 0 8200 gZ 8200 8192 8 (by decide) (by decide)
        (by decide) (by rw [dCex_size]) hchunk (by decide)
      exact this
    calc find_eocd dCex gZ = findEocdLoop dCex 0 (8200 + 1) gZ 8200 := rfl
      _ = findEocdLoop dCex 0 8200 (bufFill dCex 8 8192 gZ) 8 := h1
      _ = .ok (0, 0) := rfl
  · refine ⟨?_, rfl⟩
    have hchunk : ∀ i, i ≤ 8192 - 4 → readU32 (bufFill dCex2 12 8192 gZ) i ≠ eocdSig := by
      intro i hi
      rw [readU32_bufFill (by omega)]
      by_cases h13 : i < 13
      · have ht : ∀ j, j < 13 → dataU32 dCex2 (12 + j) ≠ eocdSig := by decide
        exact ht i h13
      · have hz : dataU32 dCex2 (12 + i) = 0 := by
          unfold dataU32 readU32 byteVal
          rw [dCex2_byte_hi (12 + i) (by omega), dCex2_byte_hi (12 + i + 1) (by omega),
            dCex2_byte_hi (12 + i + 2) (by omega), dCex2_byte_hi (12 + i + 3) (by omega)]
        rw [hz]
        decide
    have h1 : findEocdLoop dCex2 0 (8204 + 1) gZ 8204
        = findEocdLoop dCex2 0 8204 (bufFill dCex2 12 8192 gZ) 12 := by
      have := findEocdLoop_step_none dCex2 0 8204 gZ 8204 8192 12 (by decide) (by decide)
        (by decide) (by decide) hchunk (by decide)
      exact this
    calc find_eocd dCex2 gZ = findEocdLoop dCex2 0 (8204 + 1) gZ 8204 := rfl
      _ = findEocdLoop dCex2 0 8204 (bufFill dCex2 12 8192 gZ) 12 := h1
      _ = .ok (1, 13090) := rfl

/- ------------------------------------------------------------------ -/
/- Directory parsing: entry counts and ZIP64 delegation.              -/
/- ------------------------------------------------------------------ -/

/-- A successful sequential directory parse yields exactly the announced
number of entries. -/
lemma parseEntries_length (d : ZipData) (g : Nat → Nat) :
    ∀ (n off : Nat) (l : List ZipEntry), parseEntries d g off n = .ok l → l.length = n := by
  intro n
  induction n with
  | zero =>
    intro off l h
    unfold parseEntries at h
    cases h
    rfl
  | succ n ih =>
    intro off l h
    unfold parseEntries at h
    rcases h1 : read_cd_entry d g off with e | p
    · rw [h1] at h
      cases h
    · rw [h1] at h
      dsimp only at h
      rcases h2 : parseEntries d g p.2 n with e | rest
      · rw [h2] at h
        cases h
      · rw [h2] at h
        dsimp only at h
        cases h
        simp [ih p.2 rest h2]

/-- A 22-byte source holding just an EOCD record that declares 65535
entries (count field 0xFFFF) and central-directory offset 0. -/
def dMax16 : ZipData :=
  ⟨fun i =>
    [0x50, 0x4b, 0x05, 0x06, 0, 0, 0, 0, 0xFF, 0xFF,
     0xFF, 0xFF, 0, 0, 0, 0, 0, 0, 0, 0, 0, 0].getD i 0, 22⟩

/-- The archive value `ziprand_open` produces on `dArch1`. -/
def aArch1 : ZipArchive :=
  ⟨[⟨[97], 5, 5, 0, 0, 0⟩], 1, 69⟩

/-- C2: `get_cd_info` delegates to the ZIP64 path exactly when the EOCD's
32-bit central-directory-offset field is the escape value 0xFFFFFFFF, and
otherwise returns the 16-bit entry count (whatever it is, 65535 included)
and 32-bit offset directly; and whenever `open` succeeds, the archive's
entry count and entry-table length are exactly the count announced by
`get_cd_info` (legacy 16-bit or ZIP64 64-bit alike). -/
theorem claim_C2 : ∀ (d : ZipData) (g : Nat → Nat),
    (∀ eo n16, find_eocd d g = .ok (eo, n16) → availLen d eo 22 = 22 →
      (eocdCd32 d g eo = escape32 → get_cd_info d g = read_zip64_eocd d g eo) ∧
      (eocdCd32 d g eo ≠ escape32 → get_cd_info d g = .ok (eocdCd32 d g eo, n16)))
    ∧ (∀ cdOff n a, get_cd_info d g = .ok (cdOff, n) → ziprand_open d g = some a →
        a.entry_count = n ∧ a.entries.length = n) := by
  intro d g
  constructor
  · intro eo n16 hfind havail
    constructor
    · intro hesc
      unfold get_cd_info
      rw [hfind]
      dsimp only
      rw [if_neg (by simp [havail]), if_pos hesc]
    · intro hesc
      unfold get_cd_info
      rw [hfind]
      dsimp only
      rw [if_neg (by simp [havail]), if_neg hesc]
  · intro cdOff n a hcd hopen
    unfold ziprand_open at hopen
    rw [hcd] at hopen
    dsimp only at hopen
    rcases hp : parseEntries d g cdOff n with e | es
    · rw [hp] at hopen
      cases hopen
    · rw [hp] at hopen
      dsimp only at hopen
      cases hopen
      exact ⟨rfl, parseEntries_length d g n cdOff es hp⟩

/-- Witness for C2: on a legacy archive whose EOCD declares 65535 entries
and a non-escape directory offset, `get_cd_info` returns 65535 directly
(the 16-bit maximum is not misread as a ZIP64 escape); and opening the
concrete one-entry archive `dArch1` yields entry count 1 = declared 1. -/
theorem claim_C2_witness :
    get_cd_info dMax16 gZ = .ok (eocdCd32 dMax16 gZ 0, 65535) ∧
      aArch1.entry_count = 1 ∧ aArch1.entries.length = 1 := by
  refine ⟨((claim_C2 dMax16 gZ).1 0 65535 rfl rfl).2 (by decide), ?_⟩
  exact (claim_C2 dArch1 gZ).2 0 1 aArch1 rfl rfl

/-- A 22-byte source holding just an EOCD record that declares 1 entry at
central-directory offset 0: parsing the (absent) entry fails with a short
read, so `open` must discard everything and return no archive. -/
def dFail1 : ZipData :=
  ⟨fun i =>
    [0x50, 0x4b, 0x05, 0x06, 0, 0, 0, 0, 1, 0,
     1, 0, 0, 0, 0, 0, 0, 0, 0, 0, 0, 0].getD i 0, 22⟩

/-- C9: `ziprand_open` is all-or-nothing — if parsing any central-directory
entry fails, `open` returns no archive at all, and whenever it does return
an archive, the whole entry table was parsed successfully (so a
partially-built archive is never returned; in this memory-safe model,
entries of an abandoned attempt are unreachable, which is the observable
content of releasing them). -/
theorem claim_C9 : ∀ (d : ZipData) (g : Nat → Nat) (cdOff n : Nat),
    get_cd_info d g = .ok (cdOff, n) →
    (∀ e, parseEntries d g cdOff n = .error e → ziprand_open d g = none)
    ∧ (∀ a, ziprand_open d g = some a →
        parseEntries d g cdOff n = .ok a.entries ∧ a.entries.length = n) := by
  intro d g cdOff n hcd
  constructor
  · intro e he
    unfold ziprand_open
    rw [hcd]
    dsimp only
    rw [he]
  · intro a hopen
    unfold ziprand_open at hopen
    rw [hcd] at hopen
    dsimp only at hopen
    rcases hp : parseEntries d g cdOff n with e | es
    · rw [hp] at hopen
      cases hopen
    · rw [hp] at hopen
      dsimp only at hopen
      cases hopen
      exact ⟨rfl, parseEntries_length d g n cdOff es hp⟩

/-- Witness for C9: on `dFail1` the declared single entry fails to parse
(46-byte header read is short), and `open` indeed returns no archive. -/
theorem claim_C9_witness : ziprand_open dFail1 gZ = none :=
  (claim_C9 dFail1 gZ 0 1 rfl).1 .ioErr rfl

/- ------------------------------------------------------------------ -/
/- fopen: compression gate and lazy data_offset resolution.           -/
/- ------------------------------------------------------------------ -/

/-- A 33-byte source holding a local file header at offset 0 with
filename_len 2 and extra_len 1, so the data offset is 0 + 30 + 2 + 1. -/
def dLocal : ZipData :=
  ⟨fun i =>
    [0x50, 0x4b, 0x03, 0x04, 0, 0, 0, 0, 0, 0,
     0, 0, 0, 0, 0, 0, 0, 0, 0, 0,
     0, 0, 0, 0, 0, 0, 2, 0, 1, 0, 0, 0, 0].getD i 0, 33⟩

/-- A stored entry whose data offset is still the unresolved 0 sentinel. -/
def eLocal : ZipEntry := ⟨[], 0, 5, 0, 0, 0⟩

/-- C5: the first `fopen` that needs an entry (its `data_offset` still the
0 sentinel) resolves the data offset from the 30-byte local file header at
`entry.offset`: it returns no handle unless that header's signature is
0x04034b50, and on success the cached `data_offset` equals
`offset + 30 + filename_len + extra_len` taken from the local header's own
length fields; an entry already resolved (`data_offset ≠ 0`) is handed out
unchanged, with the cursor at 0 in both cases. -/
theorem claim_C5 : ∀ (d : ZipData) (e : ZipEntry),
    (e.data_offset = 0 → ∀ e2 f, ziprand_fopen d e = some (e2, f) →
      e.compression_method = 0 ∧
      readU32 (lfhBuf d e.offset) 0 = localHeaderSig ∧
      e2.data_offset = e.offset + 30 + readU16 (lfhBuf d e.offset) 26 +
        readU16 (lfhBuf d e.offset) 28 ∧
      f.dataOffset = e2.data_offset ∧ f.position = 0 ∧ f.usize = e.uncompressed_size)
    ∧ (e.data_offset = 0 → readU32 (lfhBuf d e.offset) 0 ≠ localHeaderSig →
        ziprand_fopen d e = none)
    ∧ (e.data_offset ≠ 0 → e.compression_method = 0 →
        ziprand_fopen d e = some (e, ⟨e.uncompressed_size, e.data_offset, 0⟩)) := by
  intro d e
  refine ⟨?_, ?_, ?_⟩
  · intro h0 e2 f hopen
    unfold ziprand_fopen at hopen
    by_cases hm : e.compression_method ≠ 0
    · rw [if_pos hm] at hopen
      cases hopen
    · rw [if_neg hm] at hopen
      rw [if_pos h0] at hopen
      unfold get_data_offset at hopen
      by_cases ha : availLen d e.offset 30 ≠ 30
      · rw [if_pos ha] at hopen
        cases hopen
      · rw [if_neg ha] at hopen
        by_cases hsig : readU32 (lfhBuf d e.offset) 0 ≠ localHeaderSig
        · rw [if_pos hsig] at hopen
          cases hopen
        · rw [if_neg hsig] at hopen
          dsimp only at hopen
          cases hopen
          refine ⟨by omega, by omega, rfl, rfl, rfl, rfl⟩
  · intro h0 hsig
    unfold ziprand_fopen
    by_cases hm : e.compression_method ≠ 0
    · rw [if_pos hm]
    · rw [if_neg hm]
      rw [if_pos h0]
      unfold get_data_offset
      by_cases ha : availLen d e.offset 30 ≠ 30
      · rw [if_pos ha]
      · rw [if_neg ha]
        rw [if_pos hsig]
  · intro h0 hm
    unfold ziprand_fopen
    rw [if_neg (by omega : ¬ e.compression_method ≠ 0)]
    rw [if_neg h0]

/-- Witness for C5: opening `eLocal` against `dLocal` resolves and caches
`data_offset = 0 + 30 + 2 + 1 = 33`, handing out a cursor at position 0. -/
theorem claim_C5_witness :
    ziprand_fopen dLocal eLocal = some (⟨[], 0, 5, 0, 33, 0⟩, ⟨5, 33, 0⟩) ∧
      (33 : Nat) = eLocal.offset + 30 + readU16 (lfhBuf dLocal eLocal.offset) 26 +
        readU16 (lfhBuf dLocal eLocal.offset) 28 := by
  refine ⟨rfl, ?_⟩
  have h := ((claim_C5 dLocal eLocal).1 rfl ⟨[], 0, 5, 0, 33, 0⟩ ⟨5, 33, 0⟩ rfl).2.2.1
  simpa using h.symm

/-- C8: `ziprand_fopen` (and hence `ziprand_fopen_by_name` resolving to
such an entry) returns no handle whenever the entry's compression method is
not 0 (stored), and any successful open implies the method was 0. -/
theorem claim_C8 : ∀ (d : ZipData) (e : ZipEntry),
    (e.compression_method ≠ 0 → ziprand_fopen d e = none)
    ∧ (∀ r, ziprand_fopen d e = some r → e.compression_method = 0) := by
  intro d e
  constructor
  · intro hm
    unfold ziprand_fopen
    rw [if_pos hm]
  · intro r hopen
    by_cases hm : e.compression_method = 0
    · exact hm
    · unfold ziprand_fopen at hopen
      rw [if_pos hm] at hopen
      cases hopen

/-- Witness for C8: a deflated entry (method 8) is refused. -/
theorem claim_C8_witness : ziprand_fopen dLocal ⟨[], 0, 5, 0, 0, 8⟩ = none :=
  (claim_C8 dLocal ⟨[], 0, 5, 0, 0, 8⟩).1 (by decide)

/- ------------------------------------------------------------------ -/
/- FileView operations.                                               -/
/- ------------------------------------------------------------------ -/

/-- C3: `ziprand_fread_at` is position-independent and pure — its result
does not depend on the view's cursor and it never changes any view state;
an offset at or past the uncompressed size yields 0, not an error; any
other offset delegates exactly `min(size, uncompressed_size - offset)`
requested bytes at source offset `data_offset + offset`, returning the
source's result unchanged (negative errors included). -/
theorem claim_C3 : ∀ (rd : ReadFn) (f : ZFile) (q off sz : Nat),
    ziprand_fread_at rd { f with position := q } off sz = ziprand_fread_at rd f off sz
    ∧ (f.usize ≤ off → ziprand_fread_at rd f off sz = 0)
    ∧ (off < f.usize →
        ziprand_fread_at rd f off sz = rd (f.dataOffset + off) (min sz (f.usize - off))) := by
  intro rd f q off sz
  refine ⟨rfl, ?_, ?_⟩
  · intro h
    unfold ziprand_fread_at
    rw [if_pos h]
  · intro h
    unfold ziprand_fread_at
    rw [if_neg (by omega : ¬ f.usize ≤ off)]

/-- Witness for C3: with a source that always fails with -3, `fread_at` at
an in-range offset propagates -3 unchanged, and at an out-of-range offset
returns 0 instead of the error. -/
theorem claim_C3_witness :
    ziprand_fread_at (fun _ _ => (-3 : Int)) ⟨10, 50, 7⟩ 2 4 = -3 ∧
      ziprand_fread_at (fun _ _ => (-3 : Int)) ⟨10, 50, 7⟩ 12 4 = 0 := by
  constructor
  · exact (claim_C3 (fun _ _ => (-3 : Int)) ⟨10, 50, 7⟩ 0 2 4).2.2 (by decide)
  · exact (claim_C3 (fun _ _ => (-3 : Int)) ⟨10, 50, 7⟩ 0 12 4).2.1 (by decide)

/-- C4: `ziprand_fread` returns exactly what `ziprand_fread_at` returns at
the view's current position; it then advances the (uint64) cursor by
exactly the returned byte count when that count is positive (exactly, with
no wrap, whenever the sum stays below 2^64) and leaves the cursor (and the
whole view) unchanged when the result is zero or negative; consequently
`fseek(SET, 0)` (which succeeds returning 0) followed by `fread(n)` reads
the same result as `fread_at(0, n)`. -/
theorem claim_C4 : ∀ (rd : ReadFn) (f : ZFile) (sz : Nat),
    (ziprand_fread rd f sz).1 = ziprand_fread_at rd f f.position sz
    ∧ (0 < (ziprand_fread rd f sz).1 →
        (ziprand_fread rd f sz).2.position
          = (f.position + ((ziprand_fread rd f sz).1).toNat) % u64Mod)
    ∧ (0 < (ziprand_fread rd f sz).1 →
        f.position + ((ziprand_fread rd f sz).1).toNat < u64Mod →
        (ziprand_fread rd f sz).2.position
          = f.position + ((ziprand_fread rd f sz).1).toNat)
    ∧ ((ziprand_fread rd f sz).1 ≤ 0 → (ziprand_fread rd f sz).2 = f)
    ∧ (ziprand_fseek f 0 seekSet).1 = 0
    ∧ (ziprand_fread rd (ziprand_fseek f 0 seekSet).2 sz).1 = ziprand_fread_at rd f 0 sz := by
  intro rd f sz
  have hseek : ziprand_fseek f 0 seekSet = (0, { f with position := 0 }) := by
    unfold ziprand_fseek fseekNewPos
    rw [if_pos rfl]
    dsimp only
    rw [if_neg (by simp [u64OfInt] : ¬ f.usize < u64OfInt 0)]
    norm_num [toInt64, u64OfInt, u64Mod]
  unfold ziprand_fread
  by_cases hr : 0 < ziprand_fread_at rd f f.position sz
  · rw [if_pos hr]
    dsimp only
    refine ⟨rfl, fun _ => rfl, fun _ hlt => Nat.mod_eq_of_lt hlt, fun hc => absurd hr (by omega), ?_, ?_⟩
    · rw [hseek]
    · rw [hseek]
      dsimp only
      rw [show ziprand_fread_at rd { f with position := 0 } 0 sz
          = ziprand_fread_at rd f 0 sz from rfl]
      by_cases h2 : 0 < ziprand_fread_at rd f 0 sz
      · rw [if_pos h2]
      · rw [if_neg h2]
  · rw [if_neg hr]
    dsimp only
    refine ⟨rfl, fun hc => absurd hc hr, fun hc => absurd hc hr, fun _ => rfl, ?_, ?_⟩
    · rw [hseek]
    · rw [hseek]
      dsimp only
      rw [show ziprand_fread_at rd { f with position := 0 } 0 sz
          = ziprand_fread_at rd f 0 sz from rfl]
      by_cases h2 : 0 < ziprand_fread_at rd f 0 sz
      · rw [if_pos h2]
      · rw [if_neg h2]

/-- Witness for C4: with a source returning 5 bytes, a read at position 2
of a 10-byte view returns 5 and advances the cursor to exactly 7. -/
theorem claim_C4_witness :
    (ziprand_fread (fun _ _ => (5 : Int)) ⟨10, 0, 2⟩ 6).1 = 5 ∧
      (ziprand_fread (fun _ _ => (5 : Int)) ⟨10, 0, 2⟩ 6).2.position = 7 := by
  have h := (claim_C4 (fun _ _ => (5 : Int)) ⟨10, 0, 2⟩ 6).2.2.1 (by decide) (by decide)
  exact ⟨by decide, by rw [h]; decide⟩

/-- C6 (amended): for SEEK_CUR and SEEK_END, a computed result that would
go below zero is clamped to position 0 and the seek succeeds returning 0;
in particular `fseek(END, -k)` with k exceeding the uncompressed size sets
the position to 0.  For SEEK_SET, however, a negative offset is converted
to an unsigned 64-bit value (no clamping), so the seek fails with -1 and
leaves the position unchanged whenever that wrapped value exceeds the
uncompressed size. -/
theorem claim_C6 : ∀ (f : ZFile) (k : Int),
    (k < 0 → f.position < (-k).toNat →
      ziprand_fseek f k seekCur = (0, { f with position := 0 }))
    ∧ (k < 0 → f.usize < (-k).toNat →
      ziprand_fseek f k seekEnd = (0, { f with position := 0 }))
    ∧ (k < 0 → f.usize < u64OfInt k → ziprand_fseek f k seekSet = (-1, f)) := by
  intro f k
  refine ⟨?_, ?_, ?_⟩
  · intro hk hpos
    unfold ziprand_fseek fseekNewPos
    rw [if_neg (by decide : ¬ seekCur = seekSet), if_pos rfl]
    dsimp only
    rw [if_neg (by omega : ¬ 0 ≤ k), if_pos hpos]
    rw [if_neg (by omega : ¬ f.usize < 0)]
    norm_num [toInt64, u64Mod]
  · intro hk hpos
    unfold ziprand_fseek fseekNewPos
    rw [if_neg (by decide : ¬ seekEnd = seekSet), if_neg (by decide : ¬ seekEnd = seekCur),
      if_pos rfl]
    dsimp only
    rw [if_neg (by omega : ¬ 0 ≤ k), if_pos hpos]
    rw [if_neg (by omega : ¬ f.usize < 0)]
    norm_num [toInt64, u64Mod]
  · intro hk hbig
    unfold ziprand_fseek fseekNewPos
    rw [if_pos rfl]
    dsimp only
    rw [if_pos hbig]

/-- Witness for C6 (amended): on a 5-byte view at position 2,
`fseek(END, -7)` (7 exceeds the entry size) clamps to position 0 and
succeeds returning 0, and `fseek(SET, -2)` fails leaving position 2. -/
theorem claim_C6_witness :
    ziprand_fseek ⟨5, 0, 2⟩ (-7) seekEnd = (0, ⟨5, 0, 0⟩) ∧
      ziprand_fseek ⟨5, 0, 2⟩ (-2) seekSet = (-1, ⟨5, 0, 2⟩) := by
  constructor
  · exact (claim_C6 ⟨5, 0, 2⟩ (-7)).2.1 (by decide) (by decide)
  · exact (claim_C6 ⟨5, 0, 2⟩ (-2)).2.2 (by decide) (by decide)

/-- Counterexample for C6 as stated: `fseek(SET, -1)` on a 5-byte view at
position 3 computes a result below zero, but instead of being clamped to 0
and succeeding it fails with -1 and keeps position 3 (the int64 offset is
reinterpreted as the unsigned value 2^64 - 1, which exceeds the entry
size). -/
theorem claim_C6_counterexample :
    ziprand_fseek ⟨5, 0, 3⟩ (-1) seekSet = (-1, ⟨5, 0, 3⟩) ∧
      (ziprand_fseek ⟨5, 0, 3⟩ (-1) seekSet).2.position ≠ 0 := by
  exact ⟨rfl, by decide⟩

/-- C7 (amended): a seek whose computed new position exceeds the entry's
uncompressed size fails and leaves the view (hence `ftell`) unchanged —
but the failure value is the bare -1, not the distinct
`ZIPRAND_ERR_SEEK_BEYOND_END` code, which `ziprand_fseek` never returns. -/
theorem claim_C7 : ∀ (f : ZFile) (off : Int) (w np : Nat),
    fseekNewPos f off w = some np → f.usize < np →
      ziprand_fseek f off w = (-1, f) ∧ ziprand_ftell (ziprand_fseek f off w).2 = ziprand_ftell f := by
  intro f off w np hnp hbig
  have h : ziprand_fseek f off w = (-1, f) := by
    unfold ziprand_fseek
    rw [hnp]
    dsimp only
    rw [if_pos hbig]
  exact ⟨h, by rw [h]⟩

/-- Witness for C7 (amended): seeking to 9 in a 5-byte view fails with -1
and leaves the position at 1. -/
theorem claim_C7_witness :
    ziprand_fseek ⟨5, 3, 1⟩ 9 seekSet = (-1, ⟨5, 3, 1⟩) ∧
      ziprand_ftell (ziprand_fseek ⟨5, 3, 1⟩ 9 seekSet).2 = ziprand_ftell ⟨5, 3, 1⟩ :=
  claim_C7 ⟨5, 3, 1⟩ 9 seekSet 9 rfl (by decide)

/-- Counterexample for C7 as stated: the failing over-long seek returns the
generic -1, which is not the `ZIPRAND_ERR_SEEK_BEYOND_END` code (-7), so
the failure is not reported "with SeekBeyondEnd". -/
theorem claim_C7_counterexample :
    (ziprand_fseek ⟨5, 0, 2⟩ 9 seekSet).1 = -1 ∧
      (ziprand_fseek ⟨5, 0, 2⟩ 9 seekSet).1 ≠ ziprandErrSeekBeyondEnd := by
  exact ⟨rfl, by decide⟩

/-- C10: assuming the source never returns more bytes than requested, the
invariant `position ≤ uncompressed_size` holds at view creation (`fopen`
hands out position 0) and is preserved by `fread` (which advances by at
most the clamped remaining length) and by `fseek` (which commits only
in-range targets); `fread` and `fseek` never change the view's size, and
`fread_at`/`ftell`/`fsize` return no view state at all. -/
theorem claim_C10 : ∀ (rd : ReadFn) (d : ZipData) (e : ZipEntry) (f : ZFile)
    (sz : Nat) (off : Int) (w : Nat),
    (∀ p n, rd p n ≤ (n : Int)) →
    ((∀ e2 fi, ziprand_fopen d e = some (e2, fi) → fi.position = 0 ∧ fi.position ≤ fi.usize)
     ∧ (f.position ≤ f.usize → (ziprand_fread rd f sz).2.position ≤ f.usize)
     ∧ (f.position ≤ f.usize → (ziprand_fseek f off w).2.position ≤ f.usize)
     ∧ (ziprand_fread rd f sz).2.usize = f.usize
     ∧ (ziprand_fseek f off w).2.usize = f.usize) := by
  intro rd d e f sz off w hrd
  have hfopen : ∀ e2 fi, ziprand_fopen d e = some (e2, fi) →
      fi.position = 0 ∧ fi.position ≤ fi.usize := by
    intro e2 fi hopen
    unfold ziprand_fopen at hopen
    by_cases hm : e.compression_method ≠ 0
    · rw [if_pos hm] at hopen
      cases hopen
    · rw [if_neg hm] at hopen
      rcases hres : (if e.data_offset = 0 then get_data_offset d e else .ok e.data_offset)
          with e1 | doff
      · rw [hres] at hopen
        cases hopen
      · rw [hres] at hopen
        dsimp only at hopen
        cases hopen
        exact ⟨rfl, Nat.zero_le _⟩
  have hfread : (f.position ≤ f.usize → (ziprand_fread rd f sz).2.position ≤ f.usize)
      ∧ (ziprand_fread rd f sz).2.usize = f.usize := by
    unfold ziprand_fread
    by_cases hr : 0 < ziprand_fread_at rd f f.position sz
    · rw [if_pos hr]
      dsimp only
      refine ⟨?_, rfl⟩
      intro hinv
      unfold ziprand_fread_at at hr ⊢
      by_cases hoff : f.usize ≤ f.position
      · rw [if_pos hoff] at hr
        omega
      · rw [if_neg hoff] at hr ⊢
        have hle : ziprand_fread_at rd f f.position sz
            ≤ ((min sz (f.usize - f.position) : Nat) : Int) := by
          unfold ziprand_fread_at
          rw [if_neg hoff]
          exact hrd _ _
        unfold ziprand_fread_at at hle
        rw [if_neg hoff] at hle
        have h1 : (rd (f.dataOffset + f.position) (min sz (f.usize - f.position))).toNat
            ≤ min sz (f.usize - f.position) := by
          omega
        calc (f.position + (rd (f.dataOffset + f.position)
              (min sz (f.usize - f.position))).toNat) % u64Mod
            ≤ f.position + (rd (f.dataOffset + f.position)
              (min sz (f.usize - f.position))).toNat := Nat.mod_le _ _
          _ ≤ f.usize := by omega
    · rw [if_neg hr]
      exact ⟨fun h => h, rfl⟩
  have hfseek : (f.position ≤ f.usize → (ziprand_fseek f off w).2.position ≤ f.usize)
      ∧ (ziprand_fseek f off w).2.usize = f.usize := by
    unfold ziprand_fseek
    rcases hnp : fseekNewPos f off w with _ | np
    · exact ⟨fun h => h, rfl⟩
    · dsimp only
      by_cases hbig : f.usize < np
      · rw [if_pos hbig]
        exact ⟨fun h => h, rfl⟩
      · rw [if_neg hbig]
        exact ⟨fun _ => by dsimp only; omega, rfl⟩
  exact ⟨hfopen, hfread.1, hfseek.1, hfread.2, hfseek.2⟩

/-- Witness for C10: with an exactly-obeying source, reading 3 bytes at
position 4 of a 10-byte view and seeking +2 both keep the cursor within
the 10-byte size. -/
theorem claim_C10_witness :
    (ziprand_fread (fun _ n => (n : Int)) ⟨10, 0, 4⟩ 3).2.position ≤ 10 ∧
      (ziprand_fseek ⟨10, 0, 4⟩ 2 seekCur).2.position ≤ 10 := by
  have h := claim_C10 (fun _ n => (n : Int)) dLocal eLocal ⟨10, 0, 4⟩ 3 2 seekCur
    (fun p n => le_refl _)
  exact ⟨h.2.1 (by decide), h.2.2.1 (by decide)⟩

end Ziprand
